import Mathlib

/-!
Verification of the Holon workflow execution engine
(`src/engine/src/holon_engine/engine.py`) against its specification.

The embedding below translates the engine's data model and operations into
Lean:

* `Val` models the Python/JSON values stored on the blackboard (`context`),
  in step outputs and in trace events.
* `resolve_template` models `WorkflowEngine._resolve_template`
  (engine.py:202-214): `re.sub(r"\x7b([^\x7d]+)\x7d", replace_var, template)`
  where `replace_var` splits the matched group on `"."`, walks the context
  dict key by key, substitutes `str(value)` on success and returns the
  whole match unchanged on failure.
* `call_ollama_agent` models `WorkflowEngine._call_ollama_agent`
  (engine.py:35-70); the HTTP exchange itself is abstracted into an
  `OllamaResponse` oracle value (the function never raises: every
  exception branch returns an error string).
* `execStep` / `execSeq` model the body of
  `WorkflowEngine._execute_sequential` (engine.py:124-200) and
  `execute_run` models `WorkflowEngine.execute_run` (engine.py:72-122).
  The persistence store is threaded through as the single `Run` record it
  holds (the engine is the only writer during execution); wall-clock
  fields (`started_at`, `ended_at`, `latency_ms`, `timestamp`) are not
  modelled.
-/

namespace Holon

/-- Python/JSON values as stored on the blackboard.  Dicts are
insertion-ordered association lists, as Python dicts are. -/
inductive Val where
  | vStr (s : String)
  | vInt (n : Int)
  | vBool (b : Bool)
  | vNone
  | vList (l : List Val)
  | vDict (d : List (String × Val))

mutual

/-- Python `repr` for the values above.  Strings are rendered with single
quotes, as Python does for strings without special characters. -/
def pyRepr : Val → String
  | .vStr s => "\x27" ++ s ++ "\x27"
  | .vInt n => toString n
  | .vBool b => if b then "True" else "False"
  | .vNone => "None"
  | .vList l => "[" ++ pyReprList l ++ "]"
  | .vDict d => "\x7b" ++ pyReprDict d ++ "\x7d"

/-- Comma-separated `repr`s of a list's elements. -/
def pyReprList : List Val → String
  | [] => ""
  | [v] => pyRepr v
  | v :: rest => pyRepr v ++ ", " ++ pyReprList rest

/-- Comma-separated `'key': repr(value)` renderings of a dict's entries. -/
def pyReprDict : List (String × Val) → String
  | [] => ""
  | [(k, v)] => "\x27" ++ k ++ "\x27: " ++ pyRepr v
  | (k, v) :: rest => "\x27" ++ k ++ "\x27: " ++ pyRepr v ++ ", " ++ pyReprDict rest

end

/-- Python `str()` applied to a value: the identity on strings, `repr`
recursively inside containers (engine.py:212 `return str(value)`). -/
def pyStr : Val → String
  | .vStr s => s
  | .vInt n => toString n
  | .vBool b => if b then "True" else "False"
  | .vNone => "None"
  | .vList l => "[" ++ pyReprList l ++ "]"
  | .vDict d => "\x7b" ++ pyReprDict d ++ "\x7d"

/-- Lookup in a Python dict modelled as an association list
(`part in value` / `value[part]`, engine.py:208-209). -/
def dictGet : List (String × Val) → String → Option Val
  | [], _ => none
  | (k', v') :: rest, k => if k' = k then some v' else dictGet rest k

/-- Python dict assignment `d[k] = v`: overwrite in place if the key
exists, else append at the end (insertion order). -/
def dictSet : List (String × Val) → String → Val → List (String × Val)
  | [], k, v => [(k, v)]
  | (k', v') :: rest, k, v =>
      if k' = k then (k, v) :: rest else (k', v') :: dictSet rest k v

/-- The opening brace character. -/
def lbrace : Char := '\x7b'

/-- The closing brace character. -/
def rbrace : Char := '\x7d'

/-- The characters up to (and excluding) the first closing brace, plus the
remainder after it; `none` when no closing brace follows.  This is how the
regex `\x7b([^\x7d]+)\x7d` delimits a match's group: the group cannot
contain a closing brace, so it ends at the first one. -/
def takeUntilRBrace : List Char → Option (List Char × List Char)
  | [] => none
  | c :: rest =>
    if c = rbrace then some ([], rest)
    else
      match takeUntilRBrace rest with
      | some (content, rest') => some (c :: content, rest')
      | none => none

/-- Attempt a regex match starting right after an opening brace: the group
(at least one character, no closing brace) and the text after the match.
An empty group fails (`+` in the regex requires one character). -/
def matchBrace (l : List Char) : Option (List Char × List Char) :=
  match takeUntilRBrace l with
  | some (content, rest') => if content = [] then none else some (content, rest')
  | none => none

/-- Python `var_path.split(".")` (engine.py:205): splitting on every dot,
keeping empty segments (`"" .split "." = [""]`, `"a..b"` gives
`["a", "", "b"]`). -/
def splitDot : List Char → List (List Char)
  | [] => [[]]
  | c :: rest =>
    if c = '.' then [] :: splitDot rest
    else
      match splitDot rest with
      | part :: parts => (c :: part) :: parts
      | [] => [[c]]

/-- `replace_var` (engine.py:203-212): split the matched group on `"."`,
walk the context; on success substitute `str(value)`, on failure return
the whole match (`match.group(0)`) unchanged. -/
def walkPath : Val → List String → Option Val
  | v, [] => some v
  | .vDict d, part :: rest =>
      match dictGet d part with
      | some v => walkPath v rest
      | none => none
  | _, _ :: _ => none

/-- The replacement text for one regex match with group `content`. -/
def replaceVar (context : Val) (content : List Char) : List Char :=
  match walkPath context ((splitDot content).map String.mk) with
  | some v => (pyStr v).data
  | none => lbrace :: content ++ [rbrace]

/-- The scan of `re.sub` over the template, with fuel (one unit per
consumed character, so the input length suffices).  At an opening brace a
match is attempted; on success the match is replaced and scanning resumes
after it, otherwise the brace is emitted literally and scanning resumes at
the next character. -/
def resolveFuel (context : Val) : Nat → List Char → List Char
  | 0, cs => cs
  | _fuel+1, [] => []
  | fuel+1, c :: rest =>
    if c = lbrace then
      match matchBrace rest with
      | some (content, rest') =>
          replaceVar context content ++ resolveFuel context fuel rest'
      | none => c :: resolveFuel context fuel rest
    else c :: resolveFuel context fuel rest

/-- `re.sub` over a character list. -/
def resolveChars (context : Val) (cs : List Char) : List Char :=
  resolveFuel context cs.length cs

/-- `WorkflowEngine._resolve_template` (engine.py:202-214). -/
def resolve_template (template : String) (context : Val) : String :=
  String.mk (resolveChars context template.data)

/-- Decides that every regex match `\x7b...\x7d` in the template fails to
resolve against the context (so `replace_var` returns every match
unchanged).  Mirrors the scan of `resolveFuel` exactly. -/
def allRefsFailFuel (context : Val) : Nat → List Char → Bool
  | 0, _ => true
  | _fuel+1, [] => true
  | fuel+1, c :: rest =>
    if c = lbrace then
      match matchBrace rest with
      | some (content, rest') =>
          (walkPath context ((splitDot content).map String.mk)).isNone &&
          allRefsFailFuel context fuel rest'
      | none => allRefsFailFuel context fuel rest
    else allRefsFailFuel context fuel rest

/-- Every reference in the template is unresolved (true in particular for
templates with no reference at all). -/
def allRefsFail (context : Val) (cs : List Char) : Bool :=
  allRefsFailFuel context cs.length cs

/-- `RunStatus` (models.py:127-133). -/
inductive RunStatus where
  | PENDING
  | RUNNING
  | COMPLETED
  | FAILED
deriving DecidableEq

/-- `TraceEventStatus` (models.py:166-170). -/
inductive TraceEventStatus where
  | COMPLETED
  | FAILED
deriving DecidableEq

/-- `TraceEvent` (models.py:180-188).  The wall-clock fields (`metrics`,
`timestamp`) are not modelled. -/
structure TraceEvent where
  step_id : String
  status : TraceEventStatus
  input : Option Val
  output : Option Val

/-- `Resource` (models.py:44-57).  `base_url` and `system_prompt` model
the extra attributes admitted by `extra = "allow"` and read through
`getattr` at engine.py:151-153. -/
structure Resource where
  id : String
  provider : Option String
  model : Option String
  base_url : Option String
  system_prompt : Option String

/-- `WorkflowStep` (models.py:68-79). -/
structure WorkflowStep where
  id : String
  agent : Option String
  instruction : Option String
  inputs : Option (List String)

/-- `WorkflowType` (models.py:60-66). -/
inductive WorkflowType where
  | SEQUENTIAL
  | SCATTER_GATHER
  | PARALLEL
deriving DecidableEq

/-- The string value of a `WorkflowType` member (Python formats a
`str`-mixin enum member as its value). -/
def wtStr : WorkflowType → String
  | .SEQUENTIAL => "sequential"
  | .SCATTER_GATHER => "scatter-gather"
  | .PARALLEL => "parallel"

/-- `Workflow` (models.py:82-86). -/
structure Workflow where
  type : WorkflowType
  steps : List WorkflowStep

/-- `HolonConfig` (models.py:89-96); the optional `trigger` is unused by
the engine and not modelled. -/
structure HolonConfig where
  version : String
  project : String
  resources : List Resource
  workflow : Workflow

/-- The blackboard, `context` (engine.py:86):
`\x7b"trigger": \x7b"input": run.input_context or \x7b\x7d\x7d, "steps": \x7b\x7d\x7d`.
The engine only ever writes the nested `steps` dict (engine.py:167), so
the two components are carried explicitly. -/
structure Ctx where
  trigger_input : List (String × Val)
  steps : List (String × Val)

/-- The blackboard as the Python dict the template resolver walks. -/
def ctxVal (c : Ctx) : Val :=
  .vDict [("trigger", .vDict [("input", .vDict c.trigger_input)]),
          ("steps", .vDict c.steps)]

/-- `Run` (models.py:201-211).  Identifier and timestamp fields are not
modelled; `trace_events` and `context` are the persisted state the claims
are about. -/
structure Run where
  status : RunStatus
  input_context : Option (List (String × Val))
  context : Option Ctx
  trace_events : List TraceEvent

/-- Outcome of the HTTP exchange inside `_call_ollama_agent`
(engine.py:50-68), abstracting the network: a well-formed chat reply, a
reply missing `message.content` (carried as its textual rendering), a
connection error, a timeout, or any other exception (carried as its
`str`). -/
inductive OllamaResponse where
  | ok (content : String)
  | badFormat (result : String)
  | connectError
  | timeout
  | otherError (msg : String)

/-- `WorkflowEngine._call_ollama_agent` (engine.py:35-70).  Every branch
returns a string: the exception handlers convert transport and other
errors into `"[Error ...]"` texts, so the function never raises. -/
def call_ollama_agent (base_url : String) (_model : String)
    (_instruction : String) (_system_prompt : Option String)
    (resp : OllamaResponse) : String :=
  match resp with
  | .ok content => content
  | .badFormat result =>
      "[Error: Unexpected Ollama response format: " ++ result ++ "]"
  | .connectError =>
      "[Error: Could not connect to Ollama at " ++ base_url ++
      ". Make sure Ollama is running.]"
  | .timeout => "[Error: Ollama request timed out]"
  | .otherError msg => "[Error calling Ollama: " ++ msg ++ "]"

/-- The environment's behaviour at one step of the loop: either the
dispatch completes (with the Ollama exchange's outcome, consulted only
when the step's resource routes to Ollama), or an exception escapes the
dispatch boundary into the `except` handler at engine.py:186 (e.g. a
persistence failure or a future capability implementation raising). -/
inductive StepEnv where
  | respond (resp : OllamaResponse)
  | raiseExc (msg : String)

/-- Python `s or dflt` on an optional string: `None` and `""` are falsy
(engine.py:152 `agent.model or "llama3"`). -/
def pyOr (s : Option String) (dflt : String) : String :=
  match s with
  | some s => if s = "" then dflt else s
  | none => dflt

/-- The linear scan for the step's agent (engine.py:142-146); comparing a
resource id with an absent `step.agent` never matches. -/
def findAgent (resources : List Resource) (agentRef : Option String) :
    Option Resource :=
  resources.find? (fun r => agentRef == some r.id)

/-- A Python optional string as a `Val` (absent fields serialize as
`None`). -/
def optStrVal : Option String → Val
  | some s => .vStr s
  | none => .vNone

/-- A Python optional string list as a `Val`. -/
def inputsVal : Option (List String) → Val
  | some l => .vList (l.map .vStr)
  | none => .vNone

/-- The simulated executor's output (engine.py:160-165). -/
def simulatedOutput (stepId : String) (instruction : String) : Val :=
  .vDict [("result", .vStr ("[SIMULATED] Executed step " ++ stepId)),
          ("instruction", .vStr instruction)]

/-- The dispatch block of the step loop (engine.py:141-165): look the
agent up among the resources; an Ollama-backed agent is called (the
response string is wrapped with the resolved instruction), anything else
— including a failed lookup — falls through to the simulated executor. -/
def dispatchOutput (resources : List Resource) (step : WorkflowStep)
    (instruction : String) (resp : OllamaResponse) : Val :=
  match findAgent resources step.agent with
  | some agent =>
      if agent.provider = some "ollama" then
        let base_url := agent.base_url.getD "http://localhost:11434"
        let model := pyOr agent.model "llama3"
        let result :=
          call_ollama_agent base_url model instruction agent.system_prompt resp
        .vDict [("result", .vStr result), ("instruction", .vStr instruction)]
      else simulatedOutput step.id instruction
  | none => simulatedOutput step.id instruction

/-- One iteration of the step loop in `_execute_sequential`
(engine.py:128-200): resolve the instruction, build the dispatch payload,
dispatch (Ollama call or simulated fallback), write the output to
`context["steps"][step.id]` and record a COMPLETED event — or, when an
exception escapes dispatch, record a FAILED event (whose `input` holds
the unresolved template, engine.py:193) and re-raise. -/
def execStep (resources : List Resource) (ctx : Ctx) (step : WorkflowStep)
    (env : StepEnv) : Except (String × TraceEvent) (Ctx × TraceEvent) :=
  let instruction := resolve_template (step.instruction.getD "") (ctxVal ctx)
  let step_input : Val := .vDict [("agent", optStrVal step.agent),
    ("instruction", .vStr instruction), ("inputs", inputsVal step.inputs)]
  match env with
  | .raiseExc msg =>
      .error (msg,
        { step_id := step.id
          status := .FAILED
          input := some (.vDict [("instruction", optStrVal step.instruction)])
          output := some (.vDict [("error", .vStr msg)]) })
  | .respond resp =>
      let step_output : Val := dispatchOutput resources step instruction resp
      .ok ({ ctx with steps := dictSet ctx.steps step.id step_output },
        { step_id := step.id
          status := .COMPLETED
          input := some step_input
          output := some step_output })

/-- The step loop of `_execute_sequential` (engine.py:128-200), threading
the accumulated trace events and the blackboard; a raised exception stops
the loop and propagates the message (the blackboard is returned as it was
when the step raised: the failed step never wrote its entry). -/
def execSeq (resources : List Resource) (env : Nat → StepEnv) :
    List WorkflowStep → Nat → Ctx → List TraceEvent →
    List TraceEvent × Ctx × Option String
  | [], _, ctx, evs => (evs, ctx, none)
  | step :: rest, i, ctx, evs =>
    match execStep resources ctx step (env i) with
    | .ok (ctx', ev) => execSeq resources env rest (i + 1) ctx' (evs ++ [ev])
    | .error (msg, ev) => (evs ++ [ev], ctx, some msg)

/-- The successive blackboard states seen by the step loop, starting with
the initial one; execution stops at the first raising step. -/
def ctxTrace (resources : List Resource) (env : Nat → StepEnv) :
    List WorkflowStep → Nat → Ctx → List Ctx
  | [], _, ctx => [ctx]
  | step :: rest, i, ctx =>
    match execStep resources ctx step (env i) with
    | .ok (ctx', _) => ctx :: ctxTrace resources env rest (i + 1) ctx'
    | .error _ => [ctx]

/-- The synthetic failure event appended by the top-level handler
(engine.py:114-119). -/
def systemErrorEvent (msg : String) : TraceEvent :=
  { step_id := "system_error"
    status := .FAILED
    input := none
    output := some (.vDict [("error", .vStr msg)]) }

/-- `WorkflowEngine.execute_run` (engine.py:72-122).  The persistence
store is the run it holds (`none` models a missing run: a silent no-op).
`parsed` is the outcome of `parse_config` (engine.py:78; YAML parsing is
not modelled).  On success the run ends COMPLETED with the final
blackboard; any exception — parse failure, unsupported workflow type, or
a step's re-raised exception — lands in the handler at engine.py:105,
which marks the run FAILED, stores the blackboard when it was already
initialized, and appends a `system_error` trace event. -/
def execute_run (runStore : Option Run) (parsed : Except String HolonConfig)
    (env : Nat → StepEnv) : Option Run :=
  match runStore with
  | none => none
  | some run =>
    match parsed with
    | .error e =>
        some { run with
               status := .FAILED
               trace_events := run.trace_events ++ [systemErrorEvent e] }
    | .ok config =>
      let ctx0 : Ctx := { trigger_input := run.input_context.getD [], steps := [] }
      match config.workflow.type with
      | .SEQUENTIAL =>
        match execSeq config.resources env config.workflow.steps 0 ctx0
            run.trace_events with
        | (evs, ctxF, none) =>
            some { run with
                   status := .COMPLETED
                   context := some ctxF
                   trace_events := evs }
        | (evs, ctxF, some msg) =>
            some { run with
                   status := .FAILED
                   context := some ctxF
                   trace_events := evs ++ [systemErrorEvent msg] }
      | t =>
        some { run with
               status := .FAILED
               context := some ctx0
               trace_events := run.trace_events ++
                 [systemErrorEvent
                   ("Workflow type " ++ wtStr t ++ " not yet implemented")] }

/-! ### Concrete fixtures

A fresh run with input context `\x7b"topic": "Rust"\x7d` (the spec's
concrete scenario) and a few small configurations, used to instantiate
the theorems below at concrete inputs. -/

/-- The input context `\x7b"topic": "Rust"\x7d`. -/
def sampleInput : List (String × Val) := [("topic", .vStr "Rust")]

/-- A run as a trigger creates it: PENDING, no blackboard, no trace. -/
def runFresh : Run :=
  { status := .PENDING
    input_context := some sampleInput
    context := none
    trace_events := [] }

/-- The initial blackboard of `runFresh`. -/
def ctxRust : Ctx := { trigger_input := sampleInput, steps := [] }

/-- A resource whose provider has no live integration. -/
def resSim : Resource :=
  { id := "researcher"
    provider := some "perplexity"
    model := some "sonar-reasoning"
    base_url := none
    system_prompt := none }

/-- An Ollama-backed resource. -/
def resOllama : Resource :=
  { id := "writer"
    provider := some "ollama"
    model := some "llama3"
    base_url := none
    system_prompt := none }

/-- The spec's concrete step: `"Research $\x7btrigger.input.topic\x7d"`. -/
def stepResearch : WorkflowStep :=
  { id := "research"
    agent := some "researcher"
    instruction := some "Research $\x7btrigger.input.topic\x7d"
    inputs := none }

/-- A second step, referencing the first step's result. -/
def stepWrite : WorkflowStep :=
  { id := "write"
    agent := some "researcher"
    instruction := some "Use $\x7bsteps.research.result\x7d"
    inputs := none }

/-- A step whose agent reference matches no declared resource. -/
def stepGhost : WorkflowStep :=
  { id := "s1"
    agent := some "ghost"
    instruction := some "Do"
    inputs := none }

/-- A step dispatched to the Ollama resource. -/
def stepOllama : WorkflowStep :=
  { id := "s1"
    agent := some "writer"
    instruction := some "Do"
    inputs := none }

/-- Two-step sequential configuration over the simulated provider. -/
def cfgTwo : HolonConfig :=
  { version := "1.0"
    project := "Test-Project"
    resources := [resSim]
    workflow := { type := .SEQUENTIAL, steps := [stepResearch, stepWrite] } }

/-- One-step sequential configuration (the spec's concrete scenario). -/
def cfgOne : HolonConfig :=
  { version := "1.0"
    project := "Test-Project"
    resources := [resSim]
    workflow := { type := .SEQUENTIAL, steps := [stepResearch] } }

/-- Sequential configuration whose only step has a dangling agent
reference. -/
def cfgGhost : HolonConfig :=
  { version := "1.0"
    project := "Test-Project"
    resources := []
    workflow := { type := .SEQUENTIAL, steps := [stepGhost] } }

/-- Sequential configuration dispatching to Ollama. -/
def cfgOllama : HolonConfig :=
  { version := "1.0"
    project := "Test-Project"
    resources := [resOllama]
    workflow := { type := .SEQUENTIAL, steps := [stepOllama] } }

/-- A configuration declaring an unimplemented workflow type. -/
def cfgScatter : HolonConfig :=
  { version := "1.0"
    project := "Test-Project"
    resources := [resSim]
    workflow := { type := .SCATTER_GATHER, steps := [] } }

/-- An environment in which every dispatch completes normally. -/
def envOk : Nat → StepEnv := fun _ => .respond (.ok "hello")

/-- An environment in which every dispatch raises. -/
def envBoom : Nat → StepEnv := fun _ => .raiseExc "boom"

/-- An environment in which every Ollama call hits a connection error. -/
def envConnect : Nat → StepEnv := fun _ => .respond .connectError

/-- An environment in which dispatch raises at step index `k` and
completes normally everywhere else. -/
def envBoomAt (k : Nat) : Nat → StepEnv :=
  fun i => if i = k then .raiseExc "boom" else .respond (.ok "hello")

/-! ## Lemmas about the template resolver -/

theorem takeUntilRBrace_decomp (l : List Char) :
    ∀ content rest, takeUntilRBrace l = some (content, rest) →
      l = content ++ rbrace :: rest ∧ rbrace ∉ content := by
  induction l with
  | nil => intro c r h; simp [takeUntilRBrace] at h
  | cons x xs ih =>
    intro c r h
    rw [takeUntilRBrace] at h
    split at h
    · next hx =>
      simp only [Option.some.injEq, Prod.mk.injEq] at h
      obtain ⟨rfl, rfl⟩ := h
      exact ⟨by simp [hx], by simp⟩
    · next hx =>
      split at h
      · next content' rest' heq =>
        simp only [Option.some.injEq, Prod.mk.injEq] at h
        obtain ⟨rfl, rfl⟩ := h
        obtain ⟨hl, hn⟩ := ih content' rest' heq
        refine ⟨by simp [hl], ?_⟩
        simp only [List.mem_cons, not_or]
        exact ⟨fun hc => hx hc.symm, hn⟩
      · simp at h

theorem takeUntilRBrace_append (content rest : List Char)
    (h : rbrace ∉ content) :
    takeUntilRBrace (content ++ rbrace :: rest) = some (content, rest) := by
  induction content with
  | nil => simp [takeUntilRBrace]
  | cons x xs ih =>
    have hx : ¬x = rbrace := fun hx => h (by simp [hx])
    have hxs : rbrace ∉ xs := fun hm => h (by simp [hm])
    show takeUntilRBrace (x :: (xs ++ rbrace :: rest)) = _
    rw [takeUntilRBrace, if_neg hx, ih hxs]

theorem matchBrace_decomp (l content rest : List Char)
    (h : matchBrace l = some (content, rest)) :
    l = content ++ rbrace :: rest ∧ rbrace ∉ content ∧ content ≠ [] := by
  rw [matchBrace] at h
  split at h
  · next content' rest' heq =>
    by_cases hc : content' = []
    · rw [if_pos hc] at h; simp at h
    · rw [if_neg hc] at h
      simp only [Option.some.injEq, Prod.mk.injEq] at h
      obtain ⟨rfl, rfl⟩ := h
      obtain ⟨h1, h2⟩ := takeUntilRBrace_decomp l _ _ heq
      exact ⟨h1, h2, hc⟩
  · simp at h

theorem matchBrace_append (content rest : List Char) (hne : content ≠ [])
    (h : rbrace ∉ content) :
    matchBrace (content ++ rbrace :: rest) = some (content, rest) := by
  rw [matchBrace, takeUntilRBrace_append content rest h]
  simp [hne]

theorem resolveFuel_nil (context : Val) (fuel : Nat) :
    resolveFuel context fuel [] = [] := by
  cases fuel <;> rfl

theorem resolveFuel_congr (context : Val) :
    ∀ (f1 f2 : Nat) (cs : List Char), cs.length ≤ f1 → cs.length ≤ f2 →
      resolveFuel context f1 cs = resolveFuel context f2 cs := by
  intro f1
  induction f1 with
  | zero =>
    intro f2 cs h1 _
    rw [List.length_eq_zero.mp (Nat.le_zero.mp h1)]
    rw [resolveFuel_nil, resolveFuel_nil]
  | succ f ih =>
    intro f2 cs h1 h2
    cases cs with
    | nil => rw [resolveFuel_nil, resolveFuel_nil]
    | cons c rest =>
      cases f2 with
      | zero => simp at h2
      | succ g =>
        simp only [List.length_cons, Nat.succ_le_succ_iff] at h1 h2
        simp only [resolveFuel]
        by_cases hc : c = lbrace
        · simp only [if_pos hc]
          split
          · next content rest' heq =>
            obtain ⟨hl, _, _⟩ := matchBrace_decomp rest content rest' heq
            have hlt : rest'.length ≤ rest.length := by
              rw [hl]
              simp only [List.length_append, List.length_cons]
              omega
            rw [ih g rest' (Nat.le_trans hlt h1) (Nat.le_trans hlt h2)]
          · rw [ih g rest h1 h2]
        · simp only [if_neg hc]
          rw [ih g rest h1 h2]

theorem resolveFuel_copy (context : Val) :
    ∀ (cs rest : List Char) (fuel : Nat), lbrace ∉ cs → cs.length ≤ fuel →
      resolveFuel context fuel (cs ++ rest) =
        cs ++ resolveFuel context (fuel - cs.length) rest := by
  intro cs
  induction cs with
  | nil => intro rest fuel _ _; simp
  | cons x xs ih =>
    intro rest fuel h hlen
    cases fuel with
    | zero => simp at hlen
    | succ f =>
      have hx : ¬x = lbrace := fun hx => h (by simp [hx])
      have hxs : lbrace ∉ xs := fun hm => h (by simp [hm])
      show resolveFuel context (f + 1) (x :: (xs ++ rest)) = _
      rw [resolveFuel, if_neg hx, ih rest f hxs (by simpa using hlen)]
      have harith : f + 1 - (x :: xs).length = f - xs.length := by
        simp only [List.length_cons]
        omega
      rw [harith, List.cons_append]

theorem resolveChars_split (context : Val) (pre p post : List Char)
    (h1 : lbrace ∉ pre) (h2 : rbrace ∉ p) (h3 : p ≠ []) :
    resolveChars context (pre ++ lbrace :: (p ++ rbrace :: post)) =
      pre ++ (replaceVar context p ++ resolveChars context post) := by
  unfold resolveChars
  rw [resolveFuel_copy context pre _ _ h1
    (by simp only [List.length_append, List.length_cons]; omega)]
  congr 1
  have harith :
      (pre ++ lbrace :: (p ++ rbrace :: post)).length - pre.length =
        (p.length + post.length + 1) + 1 := by
    simp only [List.length_append, List.length_cons]
    omega
  rw [harith]
  rw [resolveFuel, if_pos rfl, matchBrace_append p post h3 h2]
  show replaceVar context p ++
      resolveFuel context (p.length + post.length + 1) post =
    replaceVar context p ++ resolveFuel context post.length post
  congr 1
  exact resolveFuel_congr context (p.length + post.length + 1) post.length post
    (by omega) (Nat.le_refl _)

theorem resolveFuel_of_allRefsFail (context : Val) :
    ∀ (fuel : Nat) (cs : List Char),
      allRefsFailFuel context fuel cs = true → resolveFuel context fuel cs = cs := by
  intro fuel
  induction fuel with
  | zero => intro cs _; rfl
  | succ f ih =>
    intro cs h
    cases cs with
    | nil => rfl
    | cons c rest =>
      rw [allRefsFailFuel] at h
      rw [resolveFuel]
      by_cases hc : c = lbrace
      · rw [if_pos hc] at h ⊢
        cases heq : matchBrace rest with
        | some pr =>
          obtain ⟨content, rest'⟩ := pr
          simp only [heq, Bool.and_eq_true, Option.isNone_iff_eq_none] at h
          obtain ⟨hwalk, hrest⟩ := h
          obtain ⟨hl, _, _⟩ := matchBrace_decomp rest content rest' heq
          simp only [heq, replaceVar, hwalk, ih rest' hrest, hl, hc]
          simp
        | none =>
          simp only [heq] at h ⊢
          rw [ih rest h]
      · rw [if_neg hc] at h ⊢
        rw [ih rest h]

theorem data_lbrace : ("\x7b" : String).data = [lbrace] := rfl

theorem data_rbrace : ("\x7d" : String).data = [rbrace] := rfl

/-- The single-match splitting of `_resolve_template`, at the `String`
level: for a template `pre ++ "\x7b" ++ p ++ "\x7d" ++ post` whose prefix
contains no opening brace and whose path `p` is a nonempty brace-free
group, the resolver emits the prefix, then `replace_var`'s result for
`p`, then the resolution of the remainder. -/
theorem resolve_template_split (context : Val) (pre p post : String)
    (h1 : lbrace ∉ pre.data) (h2 : rbrace ∉ p.data) (h3 : p.data ≠ []) :
    resolve_template (pre ++ "\x7b" ++ p ++ "\x7d" ++ post) context =
      pre ++ (String.mk (replaceVar context p.data) ++
        resolve_template post context) := by
  apply String.ext
  show resolveChars context
      ((pre ++ "\x7b" ++ p ++ "\x7d" ++ post).data) = _
  have hdata : (pre ++ "\x7b" ++ p ++ "\x7d" ++ post).data =
      pre.data ++ lbrace :: (p.data ++ rbrace :: post.data) := by
    simp only [String.data_append, lbrace, rbrace,
      List.append_assoc, List.singleton_append]
    rfl
  rw [hdata, resolveChars_split context pre.data p.data post.data h1 h2 h3]
  simp only [String.data_append]
  rfl

/-! ## Lemmas about dict operations -/

theorem dictGet_append_left (d' : List (String × Val)) (k : String)
    (v : Val) : ∀ d, dictGet d k = some v → dictGet (d ++ d') k = some v := by
  intro d
  induction d with
  | nil => intro h; simp [dictGet] at h
  | cons e rest ih =>
    obtain ⟨a, b⟩ := e
    intro h
    rw [dictGet] at h
    show dictGet ((a, b) :: (rest ++ d')) k = some v
    rw [dictGet]
    by_cases ha : a = k
    · rwa [if_pos ha] at h ⊢
    · rw [if_neg ha] at h ⊢
      exact ih h

theorem dictGet_dictSet_ne (k k' : String) (v : Val) (h : k' ≠ k) :
    ∀ d, dictGet (dictSet d k v) k' = dictGet d k' := by
  intro d
  induction d with
  | nil =>
    have hk : ¬k = k' := fun he => h he.symm
    simp [dictSet, dictGet, hk]
  | cons e rest ih =>
    obtain ⟨a, b⟩ := e
    rw [dictSet]
    by_cases ha : a = k
    · rw [if_pos ha, dictGet, dictGet]
      have hk : ¬k = k' := fun he => h he.symm
      rw [if_neg hk, if_neg (ha ▸ hk)]
    · rw [if_neg ha, dictGet, dictGet, ih]

theorem dictSet_fresh (k : String) (v : Val) :
    ∀ d, dictGet d k = none → dictSet d k v = d ++ [(k, v)] := by
  intro d
  induction d with
  | nil => intro _; rfl
  | cons e rest ih =>
    obtain ⟨a, b⟩ := e
    intro h
    rw [dictGet] at h
    by_cases ha : a = k
    · rw [if_pos ha] at h; simp at h
    · rw [if_neg ha] at h
      rw [dictSet, if_neg ha, ih h]
      rfl

theorem dictGet_of_mem_nodup (k : String) (v : Val) :
    ∀ d : List (String × Val), (d.map Prod.fst).Nodup → (k, v) ∈ d →
      dictGet d k = some v := by
  intro d
  induction d with
  | nil => intro _ h; simp at h
  | cons e rest ih =>
    obtain ⟨a, b⟩ := e
    intro hnd hmem
    rw [List.map_cons, List.nodup_cons] at hnd
    rw [dictGet]
    rcases List.mem_cons.mp hmem with heq | hmem'
    · obtain ⟨rfl, rfl⟩ : k = a ∧ v = b := by
        simpa [Prod.ext_iff] using heq
      rw [if_pos rfl]
    · by_cases ha : a = k
      · subst ha
        exact absurd (List.mem_map.mpr ⟨(a, v), hmem', rfl⟩) hnd.1
      · rw [if_neg ha]
        exact ih hnd.2 hmem'

/-! ## Equation lemmas for the step loop -/

theorem execStep_respond (resources : List Resource) (ctx : Ctx)
    (step : WorkflowStep) (resp : OllamaResponse) :
    execStep resources ctx step (.respond resp) =
      .ok ({ ctx with
             steps := dictSet ctx.steps step.id
                        (dispatchOutput resources step
                          (resolve_template (step.instruction.getD "")
                            (ctxVal ctx)) resp) },
        { step_id := step.id
          status := .COMPLETED
          input := some (.vDict [("agent", optStrVal step.agent),
                   ("instruction", .vStr (resolve_template
                     (step.instruction.getD "") (ctxVal ctx))),
                   ("inputs", inputsVal step.inputs)])
          output := some (dispatchOutput resources step
                     (resolve_template (step.instruction.getD "")
                       (ctxVal ctx)) resp) }) := rfl

theorem execStep_raise (resources : List Resource) (ctx : Ctx)
    (step : WorkflowStep) (msg : String) :
    execStep resources ctx step (.raiseExc msg) =
      .error (msg,
        { step_id := step.id
          status := .FAILED
          input := some (.vDict [("instruction", optStrVal step.instruction)])
          output := some (.vDict [("error", .vStr msg)]) }) := rfl

/-- The step loop under an environment whose every consulted entry is a
normal dispatch: no step raises, each step appends one COMPLETED event
carrying its output, and — for distinct ids fresh in the blackboard —
the `steps` dict grows by exactly one entry per step, in order. -/
theorem execSeq_all_respond (resources : List Resource) (env : Nat → StepEnv) :
    ∀ (ss : List WorkflowStep) (i : Nat) (ctx : Ctx) (evs : List TraceEvent),
      (∀ j, j < ss.length → ∃ resp, env (i + j) = .respond resp) →
      (ss.map WorkflowStep.id).Nodup →
      (∀ s ∈ ss, dictGet ctx.steps s.id = none) →
      ∃ es ctxF,
        execSeq resources env ss i ctx evs = (evs ++ es, ctxF, none) ∧
        es.map TraceEvent.step_id = ss.map WorkflowStep.id ∧
        (∀ e ∈ es, e.status = .COMPLETED ∧ e.output.isSome = true) ∧
        ctxF.trigger_input = ctx.trigger_input ∧
        ctxF.steps = ctx.steps ++
          es.map (fun e => (e.step_id, e.output.getD .vNone)) := by
  intro ss
  induction ss with
  | nil =>
    intro i ctx evs _ _ _
    exact ⟨[], ctx, by simp [execSeq], by simp, by simp, rfl, by simp⟩
  | cons step rest ih =>
    intro i ctx evs hresp hnd hfresh
    obtain ⟨resp, hr⟩ := hresp 0 (by simp)
    rw [Nat.add_zero] at hr
    rw [List.map_cons, List.nodup_cons] at hnd
    have hfresh0 : dictGet ctx.steps step.id = none :=
      hfresh step (List.mem_cons_self step rest)
    set out := dispatchOutput resources step
      (resolve_template (step.instruction.getD "") (ctxVal ctx)) resp with hout
    set ev0 : TraceEvent :=
      { step_id := step.id
        status := .COMPLETED
        input := some (.vDict [("agent", optStrVal step.agent),
                 ("instruction", .vStr (resolve_template
                   (step.instruction.getD "") (ctxVal ctx))),
                 ("inputs", inputsVal step.inputs)])
        output := some out } with hev0
    set ctx1 : Ctx := { ctx with steps := dictSet ctx.steps step.id out }
      with hctx1
    obtain ⟨es, ctxF, he, hids, hst, htr, hsteps⟩ :=
      ih (i + 1) ctx1 (evs ++ [ev0])
        (fun j hj => by
          obtain ⟨r, hrj⟩ := hresp (j + 1) (by simpa using Nat.succ_lt_succ hj)
          exact ⟨r, by rw [show i + 1 + j = i + (j + 1) by omega]; exact hrj⟩)
        hnd.2
        (fun s hs => by
          have hne : s.id ≠ step.id := by
            intro hcon
            exact hnd.1 (hcon ▸ List.mem_map.mpr ⟨s, hs, rfl⟩)
          show dictGet (dictSet ctx.steps step.id out) s.id = none
          rw [dictGet_dictSet_ne step.id s.id out hne]
          exact hfresh s (List.mem_cons_of_mem step hs))
    refine ⟨ev0 :: es, ctxF, ?_, ?_, ?_, htr, ?_⟩
    · rw [execSeq, hr, execStep_respond]
      show execSeq resources env rest (i + 1) ctx1 (evs ++ [ev0]) = _
      rw [he]
      simp
    · simpa using hids
    · intro e hmem
      rcases List.mem_cons.mp hmem with heq | hmem'
      · subst heq
        exact ⟨rfl, rfl⟩
      · exact hst e hmem'
    · rw [hsteps]
      show dictSet ctx.steps step.id out ++ _ = _
      rw [dictSet_fresh step.id out ctx.steps hfresh0]
      simp

/-- Splitting the step loop at a list append: the second half runs only
when the first half raised nothing, starting at the accumulated state and
the shifted step index. -/
theorem execSeq_append (resources : List Resource) (env : Nat → StepEnv) :
    ∀ (s1 s2 : List WorkflowStep) (i : Nat) (ctx : Ctx)
      (evs : List TraceEvent),
      execSeq resources env (s1 ++ s2) i ctx evs =
        match execSeq resources env s1 i ctx evs with
        | (evs', ctx', none) => execSeq resources env s2 (i + s1.length) ctx' evs'
        | (evs', ctx', some m) => (evs', ctx', some m) := by
  intro s1
  induction s1 with
  | nil => intro s2 i ctx evs; simp [execSeq]
  | cons step rest ih =>
    intro s2 i ctx evs
    show execSeq resources env (step :: (rest ++ s2)) i ctx evs = _
    rw [execSeq]
    conv_rhs => rw [execSeq]
    cases hstep : execStep resources ctx step (env i) with
    | ok pr =>
      obtain ⟨ctx', ev⟩ := pr
      show execSeq resources env (rest ++ s2) (i + 1) ctx' (evs ++ [ev]) =
        match execSeq resources env rest (i + 1) ctx' (evs ++ [ev]) with
        | (evs', ctx'', none) =>
            execSeq resources env s2 (i + (step :: rest).length) ctx'' evs'
        | (evs', ctx'', some m) => (evs', ctx'', some m)
      simp only [List.length_cons,
        show i + (rest.length + 1) = i + 1 + rest.length from by omega]
      exact ih s2 (i + 1) ctx' (evs ++ [ev])
    | error pr => rfl

/-! ## Claim theorems about the run lifecycle -/

/-- C1: a valid sequential workflow (distinct step ids) whose every step
dispatches without raising drives a fresh run to COMPLETED with exactly
one COMPLETED trace event per step, in declaration order, and a final
blackboard whose `steps` dict holds exactly the step ids, in declaration
order, each mapped to that step's recorded output. -/
theorem seq_success_run (run : Run) (config : HolonConfig)
    (env : Nat → StepEnv)
    (hseq : config.workflow.type = .SEQUENTIAL)
    (hempty : run.trace_events = [])
    (hresp : ∀ j, j < config.workflow.steps.length →
      ∃ resp, env j = .respond resp)
    (hnd : (config.workflow.steps.map WorkflowStep.id).Nodup) :
    ∃ r, execute_run (some run) (.ok config) env = some r ∧
      r.status = .COMPLETED ∧
      r.trace_events.length = config.workflow.steps.length ∧
      (∀ e ∈ r.trace_events, e.status = .COMPLETED) ∧
      r.trace_events.map TraceEvent.step_id =
        config.workflow.steps.map WorkflowStep.id ∧
      ∃ c, r.context = some c ∧
        c.steps.map Prod.fst = config.workflow.steps.map WorkflowStep.id ∧
        ∀ e ∈ r.trace_events, dictGet c.steps e.step_id = e.output := by
  obtain ⟨es, ctxF, he, hids, hst, htr, hsteps⟩ :=
    execSeq_all_respond config.resources env config.workflow.steps 0
      { trigger_input := run.input_context.getD [], steps := [] } []
      (fun j hj => by simpa using hresp j hj)
      hnd (fun s _ => rfl)
  have hkeys : (es.map (fun e => (e.step_id, e.output.getD .vNone))).map
      Prod.fst = config.workflow.steps.map WorkflowStep.id := by
    rw [List.map_map]
    simpa [Function.comp] using hids
  refine ⟨{ run with
            status := .COMPLETED
            context := some ctxF
            trace_events := [] ++ es }, ?_, rfl, ?_, ?_, ?_, ctxF, rfl,
      ?_, ?_⟩
  · simp only [execute_run, hempty, hseq]
    rw [he]
  · have : es.length = (config.workflow.steps.map WorkflowStep.id).length :=
      by rw [← hids]; simp
    simpa using this
  · intro e hmem
    exact (hst e (by simpa using hmem)).1
  · simpa using hids
  · rw [hsteps]
    simpa using hkeys
  · intro e hmem
    have hmem' : e ∈ es := by simpa using hmem
    obtain ⟨hstatus, hsome⟩ := hst e hmem'
    obtain ⟨x, hx⟩ := Option.isSome_iff_exists.mp hsome
    rw [hsteps]
    simp only [List.nil_append]
    have hlook := dictGet_of_mem_nodup e.step_id (e.output.getD .vNone)
      (es.map (fun e => (e.step_id, e.output.getD .vNone)))
      (hkeys ▸ hnd) (List.mem_map.mpr ⟨e, hmem', rfl⟩)
    rw [hlook, hx]
    simp

/-- C1 witness: the two-step simulated workflow `cfgTwo` on the fresh run
completes with two COMPLETED trace events for `research` and `write`, and
the blackboard's `steps` holds those two ids with their outputs. -/
theorem seq_success_run_witness :
    ∃ r, execute_run (some runFresh) (.ok cfgTwo) envOk = some r ∧
      r.status = .COMPLETED ∧
      r.trace_events.length = cfgTwo.workflow.steps.length ∧
      (∀ e ∈ r.trace_events, e.status = .COMPLETED) ∧
      r.trace_events.map TraceEvent.step_id =
        cfgTwo.workflow.steps.map WorkflowStep.id ∧
      ∃ c, r.context = some c ∧
        c.steps.map Prod.fst = cfgTwo.workflow.steps.map WorkflowStep.id ∧
        ∀ e ∈ r.trace_events, dictGet c.steps e.step_id = e.output :=
  seq_success_run runFresh cfgTwo envOk rfl rfl
    (fun _ _ => ⟨.ok "hello", rfl⟩) (by decide)

/-- C2 counterexample: the claim predicts exactly `k` trace events when
step `k` raises; on a one-step workflow (`k = 1`) whose dispatch raises,
the code records TWO events — the step's FAILED event and the
`system_error` event appended by `execute_run`'s top-level handler. -/
theorem step_failure_eventcount_cex :
    (execute_run (some runFresh) (.ok cfgOne) envBoom).map
        (fun r => (r.status, r.trace_events.map TraceEvent.step_id)) =
      some (.FAILED, ["research", "system_error"]) ∧
    ¬ (execute_run (some runFresh) (.ok cfgOne) envBoom).map
        (fun r => r.trace_events.length) = some 1 := by
  refine ⟨rfl, ?_⟩
  rw [show (execute_run (some runFresh) (.ok cfgOne) envBoom).map
        (fun r => r.trace_events.length) = some 2 from rfl]
  decide

/-- C2 (amended): if step `p+1` (1-indexed; position `p`) raises an
uncaught dispatch exception, the run ends FAILED with exactly `p + 2`
trace events: one COMPLETED event per earlier step in order, one FAILED
event for the raising step, and one trailing synthetic `system_error`
FAILED event appended by the top-level handler; later steps are never
dispatched — they have no trace events and no blackboard `steps`
entries (the blackboard holds exactly the first `p` ids). -/
theorem step_failure_run (run : Run) (config : HolonConfig)
    (env : Nat → StepEnv) (p : Nat) (msg : String)
    (hseq : config.workflow.type = .SEQUENTIAL)
    (hempty : run.trace_events = [])
    (hp : p < config.workflow.steps.length)
    (hresp : ∀ j, j < p → ∃ resp, env j = .respond resp)
    (hraise : env p = .raiseExc msg)
    (hnd : (config.workflow.steps.map WorkflowStep.id).Nodup) :
    ∃ r, execute_run (some run) (.ok config) env = some r ∧
      r.status = .FAILED ∧
      r.trace_events.length = p + 2 ∧
      r.trace_events.map TraceEvent.step_id =
        (config.workflow.steps.take p).map WorkflowStep.id ++
          [(config.workflow.steps.get ⟨p, hp⟩).id, "system_error"] ∧
      r.trace_events.map TraceEvent.status =
        List.replicate p .COMPLETED ++ [.FAILED, .FAILED] ∧
      ∃ c, r.context = some c ∧
        c.steps.map Prod.fst =
          (config.workflow.steps.take p).map WorkflowStep.id := by
  have hlen1 : (config.workflow.steps.take p).length = p := by
    rw [List.length_take]
    omega
  have hnd1 : ((config.workflow.steps.take p).map WorkflowStep.id).Nodup := by
    rw [List.map_take]
    exact (List.take_sublist p _).nodup hnd
  obtain ⟨es, ctxF, he, hids, hst, htr, hsteps⟩ :=
    execSeq_all_respond config.resources env (config.workflow.steps.take p) 0
      { trigger_input := run.input_context.getD [], steps := [] } []
      (fun j hj => by
        rw [hlen1] at hj
        simpa using hresp j hj)
      hnd1 (fun s _ => rfl)
  have heslen : es.length = p := by
    have hh := congrArg List.length hids
    simp only [List.length_map] at hh
    rw [hlen1] at hh
    exact hh
  have hsplit : config.workflow.steps =
      config.workflow.steps.take p ++
        (config.workflow.steps.get ⟨p, hp⟩ ::
          config.workflow.steps.drop (p + 1)) := by
    conv_lhs => rw [← List.take_append_drop p config.workflow.steps]
    rw [List.drop_eq_getElem_cons hp]
    rfl
  set failedEv : TraceEvent :=
    { step_id := (config.workflow.steps.get ⟨p, hp⟩).id
      status := .FAILED
      input := some (.vDict [("instruction",
        optStrVal (config.workflow.steps.get ⟨p, hp⟩).instruction)])
      output := some (.vDict [("error", .vStr msg)]) } with hfe
  have hseqx : execSeq config.resources env config.workflow.steps 0
      { trigger_input := run.input_context.getD [], steps := [] } [] =
      (([] ++ es) ++ [failedEv], ctxF, some msg) := by
    conv_lhs => rw [hsplit]
    rw [execSeq_append, he]
    show execSeq config.resources env _ (0 + (config.workflow.steps.take p).length)
        ctxF ([] ++ es) = _
    rw [hlen1, Nat.zero_add, execSeq, hraise, execStep_raise]
  refine ⟨{ run with
            status := .FAILED
            context := some ctxF
            trace_events := (([] ++ es) ++ [failedEv]) ++
              [systemErrorEvent msg] }, ?_, rfl, ?_, ?_, ?_, ctxF, rfl, ?_⟩
  · simp only [execute_run, hempty, hseq]
    rw [hseqx]
  · simp [heslen]
  · simp only [List.nil_append, List.map_append, List.map_cons, List.map_nil,
      hids]
    simp [systemErrorEvent]
  · have hall : ∀ b ∈ es.map TraceEvent.status, b = TraceEventStatus.COMPLETED := by
      intro b hb
      obtain ⟨e, he', rfl⟩ := List.mem_map.mp hb
      exact (hst e he').1
    have hrep := List.eq_replicate_of_mem hall
    simp only [List.nil_append, List.map_append, List.map_cons, List.map_nil]
    rw [hrep]
    simp [heslen, systemErrorEvent]
  · rw [hsteps]
    rw [List.nil_append, List.map_map]
    simpa [Function.comp] using hids

/-- C2 witness (amended claim): on the two-step workflow `cfgTwo`, with
dispatch raising at the second step, the run ends FAILED with three
events — `research` COMPLETED, `write` FAILED, `system_error` FAILED —
and the blackboard holds only `research`. -/
theorem step_failure_run_witness :
    ∃ r, execute_run (some runFresh) (.ok cfgTwo) (envBoomAt 1) = some r ∧
      r.status = .FAILED ∧
      r.trace_events.length = 1 + 2 ∧
      r.trace_events.map TraceEvent.step_id =
        (cfgTwo.workflow.steps.take 1).map WorkflowStep.id ++
          [(cfgTwo.workflow.steps.get ⟨1, by decide⟩).id, "system_error"] ∧
      r.trace_events.map TraceEvent.status =
        List.replicate 1 .COMPLETED ++ [.FAILED, .FAILED] ∧
      ∃ c, r.context = some c ∧
        c.steps.map Prod.fst =
          (cfgTwo.workflow.steps.take 1).map WorkflowStep.id :=
  step_failure_run runFresh cfgTwo (envBoomAt 1) 1 "boom" rfl rfl (by decide)
    (fun j hj => ⟨.ok "hello", by
      have : j = 0 := by omega
      subst this
      rfl⟩)
    rfl (by decide)

/-- C5: a workflow declaring any type other than sequential drives the
run straight to FAILED with exactly one trace event — the synthetic
`system_error` event carrying the `NotImplementedError` text — and no
step-level trace events are produced (every event's step id is
`system_error`). -/
theorem unsupported_type_fails (run : Run) (config : HolonConfig)
    (env : Nat → StepEnv)
    (hns : config.workflow.type ≠ .SEQUENTIAL)
    (hempty : run.trace_events = []) :
    ∃ r, execute_run (some run) (.ok config) env = some r ∧
      r.status = .FAILED ∧
      r.trace_events = [systemErrorEvent ("Workflow type " ++
        wtStr config.workflow.type ++ " not yet implemented")] ∧
      r.trace_events.length = 1 ∧
      ∀ e ∈ r.trace_events, e.step_id = "system_error" := by
  cases htype : config.workflow.type with
  | SEQUENTIAL => exact absurd htype hns
  | SCATTER_GATHER =>
    refine ⟨{ run with
              status := .FAILED
              context := some { trigger_input := run.input_context.getD []
                                steps := [] }
              trace_events := run.trace_events ++ [systemErrorEvent
                ("Workflow type " ++ wtStr .SCATTER_GATHER ++
                  " not yet implemented")] }, ?_, rfl, ?_, ?_, ?_⟩
    · simp only [execute_run, htype]
    · rw [hempty]
      simp
    · rw [hempty]
      simp
    · intro e hmem
      rw [hempty] at hmem
      simp only [List.nil_append, List.mem_singleton] at hmem
      rw [hmem]
      rfl
  | PARALLEL =>
    refine ⟨{ run with
              status := .FAILED
              context := some { trigger_input := run.input_context.getD []
                                steps := [] }
              trace_events := run.trace_events ++ [systemErrorEvent
                ("Workflow type " ++ wtStr .PARALLEL ++
                  " not yet implemented")] }, ?_, rfl, ?_, ?_, ?_⟩
    · simp only [execute_run, htype]
    · rw [hempty]
      simp
    · rw [hempty]
      simp
    · intro e hmem
      rw [hempty] at hmem
      simp only [List.nil_append, List.mem_singleton] at hmem
      rw [hmem]
      rfl

/-- C5 witness: the scatter-gather configuration fails the fresh run with
the single `system_error` event. -/
theorem unsupported_type_fails_witness :
    ∃ r, execute_run (some runFresh) (.ok cfgScatter) envOk = some r ∧
      r.status = .FAILED ∧
      r.trace_events = [systemErrorEvent ("Workflow type " ++
        wtStr cfgScatter.workflow.type ++ " not yet implemented")] ∧
      r.trace_events.length = 1 ∧
      ∀ e ∈ r.trace_events, e.step_id = "system_error" :=
  unsupported_type_fails runFresh cfgScatter envOk (by decide) rfl

/-- C6: a provider transport error (connection refused or timeout) on an
Ollama-backed step is caught at the dispatch boundary and converted into
an error-shaped text result `\x7b"result": "[Error: ...]"\x7d`: no
exception reaches the step loop (the step returns `.ok`), the step is
recorded as a COMPLETED trace event holding that output, and a run made
of such a step still ends COMPLETED. -/
theorem transport_error_completes (resources : List Resource) (ctx : Ctx)
    (step : WorkflowStep) (ag : Resource) (resp : OllamaResponse)
    (version project : String) (run : Run)
    (hag : findAgent resources step.agent = some ag)
    (holl : ag.provider = some "ollama")
    (htrans : resp = .connectError ∨ resp = .timeout)
    (hempty : run.trace_events = []) :
    (∃ mid,
      dispatchOutput resources step
          (resolve_template (step.instruction.getD "") (ctxVal ctx)) resp =
        .vDict [("result", .vStr ("[Error: " ++ mid ++ "]")),
          ("instruction", .vStr (resolve_template (step.instruction.getD "")
            (ctxVal ctx)))] ∧
      ∃ ctx' ev, execStep resources ctx step (.respond resp) = .ok (ctx', ev) ∧
        ev.step_id = step.id ∧
        ev.status = .COMPLETED ∧
        ev.output = some (.vDict [("result", .vStr ("[Error: " ++ mid ++ "]")),
          ("instruction", .vStr (resolve_template (step.instruction.getD "")
            (ctxVal ctx)))])) ∧
    (∃ r, execute_run (some run)
        (.ok { version := version
               project := project
               resources := resources
               workflow := { type := .SEQUENTIAL, steps := [step] } })
        (fun _ => .respond resp) = some r ∧
      r.status = .COMPLETED ∧
      r.trace_events.length = 1 ∧
      ∀ e ∈ r.trace_events, e.status = .COMPLETED) := by
  have hout : ∃ mid,
      dispatchOutput resources step
          (resolve_template (step.instruction.getD "") (ctxVal ctx)) resp =
        .vDict [("result", .vStr ("[Error: " ++ mid ++ "]")),
          ("instruction", .vStr (resolve_template (step.instruction.getD "")
            (ctxVal ctx)))] := by
    rcases htrans with hre | hre <;> subst hre
    · refine ⟨"Could not connect to Ollama at " ++
        (ag.base_url.getD "http://localhost:11434") ++
        ". Make sure Ollama is running.", ?_⟩
      have hstr : ∀ s : String,
          ("[Error: Could not connect to Ollama at " ++ s ++
            ". Make sure Ollama is running.]" : String) =
          "[Error: " ++ ("Could not connect to Ollama at " ++ s ++
            ". Make sure Ollama is running.") ++ "]" := by
        intro s
        apply String.ext
        simp [String.data_append, List.append_assoc]
      rw [← hstr (ag.base_url.getD "http://localhost:11434")]
      simp [dispatchOutput, hag, holl, call_ollama_agent]
    · refine ⟨"Ollama request timed out", ?_⟩
      have hstr : ("[Error: Ollama request timed out]" : String) =
          "[Error: " ++ "Ollama request timed out" ++ "]" := rfl
      rw [← hstr]
      simp [dispatchOutput, hag, holl, call_ollama_agent]
  obtain ⟨mid, hmid⟩ := hout
  constructor
  · refine ⟨mid, hmid, _, _, execStep_respond resources ctx step resp,
      rfl, rfl, ?_⟩
    show some (dispatchOutput resources step
      (resolve_template (step.instruction.getD "") (ctxVal ctx)) resp) = _
    rw [hmid]
  · obtain ⟨es, ctxF, he, hids, hst, htr, hsteps⟩ :=
      execSeq_all_respond resources (fun _ => .respond resp) [step] 0
        { trigger_input := run.input_context.getD [], steps := [] } []
        (fun _ _ => ⟨resp, rfl⟩) (by simp) (fun s _ => rfl)
    refine ⟨{ run with
              status := .COMPLETED
              context := some ctxF
              trace_events := [] ++ es }, ?_, rfl, ?_, ?_⟩
    · simp only [execute_run, hempty]
      rw [he]
    · have hh := congrArg List.length hids
      simpa using hh
    · intro e hmem
      exact (hst e (by simpa using hmem)).1

/-- C6 witness: on `cfgOllama` with every call hitting a connection
error, dispatch yields the error-shaped result, the step completes, and
the run ends COMPLETED. -/
theorem transport_error_completes_witness :
    (∃ mid,
      dispatchOutput cfgOllama.resources stepOllama
          (resolve_template (stepOllama.instruction.getD "")
            (ctxVal ctxRust)) .connectError =
        .vDict [("result", .vStr ("[Error: " ++ mid ++ "]")),
          ("instruction", .vStr (resolve_template
            (stepOllama.instruction.getD "") (ctxVal ctxRust)))] ∧
      ∃ ctx' ev, execStep cfgOllama.resources ctxRust stepOllama
          (.respond .connectError) = .ok (ctx', ev) ∧
        ev.step_id = stepOllama.id ∧
        ev.status = .COMPLETED ∧
        ev.output = some (.vDict [("result", .vStr ("[Error: " ++ mid ++ "]")),
          ("instruction", .vStr (resolve_template
            (stepOllama.instruction.getD "") (ctxVal ctxRust)))])) ∧
    (∃ r, execute_run (some runFresh)
        (.ok { version := "1.0"
               project := "Test-Project"
               resources := cfgOllama.resources
               workflow := { type := .SEQUENTIAL, steps := [stepOllama] } })
        (fun _ => .respond .connectError) = some r ∧
      r.status = .COMPLETED ∧
      r.trace_events.length = 1 ∧
      ∀ e ∈ r.trace_events, e.status = .COMPLETED) :=
  transport_error_completes cfgOllama.resources ctxRust stepOllama resOllama
    .connectError "1.0" "Test-Project" runFresh rfl rfl (Or.inl rfl) rfl

/-- C7 counterexample: the claim says a step whose agent reference
matches no declared resource fails fast and is not executed; in fact, on
a workflow whose only step references the undeclared agent `ghost`, the
run proceeds, the step executes against the simulated executor and the
run ends COMPLETED with a COMPLETED trace event and a blackboard entry
for the step. -/
theorem agent_miss_simulated_cex :
    (execute_run (some runFresh) (.ok cfgGhost) envOk).map
        (fun r => (r.status, r.context.map Ctx.steps,
          r.trace_events.map (fun e => (e.step_id, e.status)))) =
      some (.COMPLETED, some [("s1", simulatedOutput "s1" "Do")],
        [("s1", .COMPLETED)]) := rfl

/-- C7 (amended): a step whose agent reference matches no declared
resource id is not failed by the engine: the lookup miss falls through
to the simulated executor (`if agent and ...` is false for a `None`
lookup result, engine.py:149), the step completes with the simulated
output and the run proceeds. -/
theorem agent_miss_simulated (resources : List Resource) (ctx : Ctx)
    (step : WorkflowStep) (resp : OllamaResponse)
    (hmiss : findAgent resources step.agent = none) :
    execStep resources ctx step (.respond resp) =
      .ok ({ ctx with
             steps := dictSet ctx.steps step.id
                        (simulatedOutput step.id (resolve_template
                          (step.instruction.getD "") (ctxVal ctx))) },
        { step_id := step.id
          status := .COMPLETED
          input := some (.vDict [("agent", optStrVal step.agent),
                   ("instruction", .vStr (resolve_template
                     (step.instruction.getD "") (ctxVal ctx))),
                   ("inputs", inputsVal step.inputs)])
          output := some (simulatedOutput step.id (resolve_template
            (step.instruction.getD "") (ctxVal ctx))) }) := by
  rw [execStep_respond]
  have hd : dispatchOutput resources step
      (resolve_template (step.instruction.getD "") (ctxVal ctx)) resp =
      simulatedOutput step.id
        (resolve_template (step.instruction.getD "") (ctxVal ctx)) := by
    simp [dispatchOutput, hmiss]
  rw [hd]

/-- C7 witness (amended claim): the dangling-agent step `stepGhost`
completes with the simulated output. -/
theorem agent_miss_simulated_witness :
    execStep [] ctxRust stepGhost (.respond (.ok "hello")) =
      .ok ({ ctxRust with
             steps := dictSet ctxRust.steps stepGhost.id
                        (simulatedOutput stepGhost.id (resolve_template
                          (stepGhost.instruction.getD "") (ctxVal ctxRust))) },
        { step_id := stepGhost.id
          status := .COMPLETED
          input := some (.vDict [("agent", optStrVal stepGhost.agent),
                   ("instruction", .vStr (resolve_template
                     (stepGhost.instruction.getD "") (ctxVal ctxRust))),
                   ("inputs", inputsVal stepGhost.inputs)])
          output := some (simulatedOutput stepGhost.id (resolve_template
            (stepGhost.instruction.getD "") (ctxVal ctxRust))) }) :=
  agent_miss_simulated [] ctxRust stepGhost (.ok "hello") rfl

/-- C8: a step whose resolved resource's provider has no registered
integration (anything but `"ollama"`) dispatches deterministically to the
simulated executor: the output is exactly
`\x7b"result": "[SIMULATED] Executed step <id>", "instruction": <resolved
instruction>\x7d`, and two dispatches of the same step on the same
blackboard — whatever the environment would have answered — are
identical. -/
theorem simulated_dispatch_deterministic (resources : List Resource)
    (ctx : Ctx) (step : WorkflowStep) (ag : Resource)
    (resp resp' : OllamaResponse)
    (hag : findAgent resources step.agent = some ag)
    (hprov : ¬ ag.provider = some "ollama") :
    dispatchOutput resources step
        (resolve_template (step.instruction.getD "") (ctxVal ctx)) resp =
      .vDict [("result", .vStr ("[SIMULATED] Executed step " ++ step.id)),
        ("instruction", .vStr (resolve_template (step.instruction.getD "")
          (ctxVal ctx)))] ∧
    execStep resources ctx step (.respond resp) =
      execStep resources ctx step (.respond resp') := by
  have hd : ∀ r : OllamaResponse,
      dispatchOutput resources step
        (resolve_template (step.instruction.getD "") (ctxVal ctx)) r =
      simulatedOutput step.id
        (resolve_template (step.instruction.getD "") (ctxVal ctx)) := by
    intro r
    simp [dispatchOutput, hag, hprov]
  refine ⟨hd resp, ?_⟩
  rw [execStep_respond, execStep_respond, hd resp, hd resp']

/-- C8 witness: the `perplexity`-backed step `stepResearch` dispatches to
the simulated output, independently of the environment's answer. -/
theorem simulated_dispatch_deterministic_witness :
    dispatchOutput [resSim] stepResearch
        (resolve_template (stepResearch.instruction.getD "")
          (ctxVal ctxRust)) (.ok "hello") =
      .vDict [("result", .vStr ("[SIMULATED] Executed step " ++
          stepResearch.id)),
        ("instruction", .vStr (resolve_template
          (stepResearch.instruction.getD "") (ctxVal ctxRust)))] ∧
    execStep [resSim] ctxRust stepResearch (.respond (.ok "hello")) =
      execStep [resSim] ctxRust stepResearch (.respond .connectError) :=
  simulated_dispatch_deterministic [resSim] ctxRust stepResearch resSim
    (.ok "hello") .connectError rfl (by decide)

/-- A successful step leaves `trigger.input` untouched and changes the
blackboard only by the Python dict assignment
`context["steps"][step.id] = step_output` (engine.py:167). -/
theorem execStep_ok_ctx (resources : List Resource) (ctx : Ctx)
    (step : WorkflowStep) (env : StepEnv) (ctx' : Ctx) (ev : TraceEvent)
    (h : execStep resources ctx step env = .ok (ctx', ev)) :
    ctx'.trigger_input = ctx.trigger_input ∧
    ∃ out, ctx'.steps = dictSet ctx.steps step.id out := by
  cases env with
  | raiseExc msg => rw [execStep_raise] at h; simp at h
  | respond resp =>
    rw [execStep_respond] at h
    simp only [Except.ok.injEq, Prod.mk.injEq] at h
    obtain ⟨h1, _⟩ := h
    rw [← h1]
    exact ⟨rfl, _, rfl⟩

theorem ctxTrace_trigger (resources : List Resource) (env : Nat → StepEnv) :
    ∀ (ss : List WorkflowStep) (i : Nat) (ctx : Ctx),
      ∀ c ∈ ctxTrace resources env ss i ctx,
        c.trigger_input = ctx.trigger_input := by
  intro ss
  induction ss with
  | nil =>
    intro i ctx c hc
    simp only [ctxTrace, List.mem_singleton] at hc
    rw [hc]
  | cons step rest ih =>
    intro i ctx c hc
    rw [ctxTrace] at hc
    cases hstep : execStep resources ctx step (env i) with
    | ok pr =>
      obtain ⟨ctx', ev⟩ := pr
      simp only [hstep] at hc
      rcases List.mem_cons.mp hc with heq | hc'
      · rw [heq]
      · rw [ih (i + 1) ctx' c hc',
          (execStep_ok_ctx resources ctx step (env i) ctx' ev hstep).1]
    | error pr =>
      simp only [hstep, List.mem_singleton] at hc
      rw [hc]

theorem ctxTrace_keys (resources : List Resource) (env : Nat → StepEnv) :
    ∀ (ss : List WorkflowStep) (i : Nat) (ctx : Ctx),
      (ss.map WorkflowStep.id).Nodup →
      (∀ s ∈ ss, dictGet ctx.steps s.id = none) →
      ∀ j c, (ctxTrace resources env ss i ctx).get? j = some c →
        c.steps.map Prod.fst =
          ctx.steps.map Prod.fst ++ (ss.take j).map WorkflowStep.id := by
  intro ss
  induction ss with
  | nil =>
    intro i ctx _ _ j c hc
    cases j with
    | zero =>
      simp only [ctxTrace, List.get?] at hc
      obtain rfl : ctx = c := by simpa using hc
      simp
    | succ j' => simp [ctxTrace, List.get?] at hc
  | cons step rest ih =>
    intro i ctx hnd hfresh j c hc
    rw [List.map_cons, List.nodup_cons] at hnd
    rw [ctxTrace] at hc
    cases hstep : execStep resources ctx step (env i) with
    | ok pr =>
      obtain ⟨ctx', ev⟩ := pr
      simp only [hstep] at hc
      obtain ⟨htr', out, hsteps'⟩ :=
        execStep_ok_ctx resources ctx step (env i) ctx' ev hstep
      have hfresh0 : dictGet ctx.steps step.id = none :=
        hfresh step (List.mem_cons_self step rest)
      have hfresh' : ∀ s ∈ rest, dictGet ctx'.steps s.id = none := by
        intro s hs
        have hne : s.id ≠ step.id := by
          intro hcon
          exact hnd.1 (hcon ▸ List.mem_map.mpr ⟨s, hs, rfl⟩)
        rw [hsteps', dictGet_dictSet_ne step.id s.id out hne]
        exact hfresh s (List.mem_cons_of_mem step hs)
      cases j with
      | zero =>
        obtain rfl : ctx = c := by simpa using hc
        simp
      | succ j' =>
        rw [List.get?_cons_succ] at hc
        rw [ih (i + 1) ctx' hnd.2 hfresh' j' c hc]
        rw [hsteps', dictSet_fresh step.id out ctx.steps hfresh0]
        simp
    | error pr =>
      simp only [hstep] at hc
      cases j with
      | zero =>
        obtain rfl : ctx = c := by simpa using hc
        simp
      | succ j' => simp [List.get?] at hc

theorem ctxTrace_extends (resources : List Resource) (env : Nat → StepEnv) :
    ∀ (ss : List WorkflowStep) (i : Nat) (ctx : Ctx),
      (ss.map WorkflowStep.id).Nodup →
      (∀ s ∈ ss, dictGet ctx.steps s.id = none) →
      ∀ c ∈ ctxTrace resources env ss i ctx,
        ∀ k v, dictGet ctx.steps k = some v → dictGet c.steps k = some v := by
  intro ss
  induction ss with
  | nil =>
    intro i ctx _ _ c hc k v hk
    simp only [ctxTrace, List.mem_singleton] at hc
    rw [hc]
    exact hk
  | cons step rest ih =>
    intro i ctx hnd hfresh c hc k v hk
    rw [List.map_cons, List.nodup_cons] at hnd
    rw [ctxTrace] at hc
    cases hstep : execStep resources ctx step (env i) with
    | ok pr =>
      obtain ⟨ctx', ev⟩ := pr
      simp only [hstep] at hc
      obtain ⟨htr', out, hsteps'⟩ :=
        execStep_ok_ctx resources ctx step (env i) ctx' ev hstep
      have hfresh0 : dictGet ctx.steps step.id = none :=
        hfresh step (List.mem_cons_self step rest)
      have hkne : k ≠ step.id := by
        intro hcon
        rw [hcon, hfresh0] at hk
        exact Option.noConfusion hk
      have hk' : dictGet ctx'.steps k = some v := by
        rw [hsteps', dictGet_dictSet_ne step.id k out hkne]
        exact hk
      rcases List.mem_cons.mp hc with heq | hc'
      · rw [heq]; exact hk
      · have hfresh' : ∀ s ∈ rest, dictGet ctx'.steps s.id = none := by
          intro s hs
          have hne : s.id ≠ step.id := by
            intro hcon
            exact hnd.1 (hcon ▸ List.mem_map.mpr ⟨s, hs, rfl⟩)
          rw [hsteps', dictGet_dictSet_ne step.id s.id out hne]
          exact hfresh s (List.mem_cons_of_mem step hs)
        exact ih (i + 1) ctx' hnd.2 hfresh' c hc' k v hk'
    | error pr =>
      simp only [hstep, List.mem_singleton] at hc
      rw [hc]
      exact hk

theorem ctxTrace_pairwise (resources : List Resource) (env : Nat → StepEnv) :
    ∀ (ss : List WorkflowStep) (i : Nat) (ctx : Ctx),
      (ss.map WorkflowStep.id).Nodup →
      (∀ s ∈ ss, dictGet ctx.steps s.id = none) →
      (ctxTrace resources env ss i ctx).Pairwise
        (fun a b => ∀ k v, dictGet a.steps k = some v →
          dictGet b.steps k = some v) := by
  intro ss
  induction ss with
  | nil => intro i ctx _ _; simp [ctxTrace]
  | cons step rest ih =>
    intro i ctx hnd hfresh
    rw [List.map_cons, List.nodup_cons] at hnd
    rw [ctxTrace]
    cases hstep : execStep resources ctx step (env i) with
    | ok pr =>
      obtain ⟨ctx', ev⟩ := pr
      obtain ⟨htr', out, hsteps'⟩ :=
        execStep_ok_ctx resources ctx step (env i) ctx' ev hstep
      have hfresh0 : dictGet ctx.steps step.id = none :=
        hfresh step (List.mem_cons_self step rest)
      have hfresh' : ∀ s ∈ rest, dictGet ctx'.steps s.id = none := by
        intro s hs
        have hne : s.id ≠ step.id := by
          intro hcon
          exact hnd.1 (hcon ▸ List.mem_map.mpr ⟨s, hs, rfl⟩)
        rw [hsteps', dictGet_dictSet_ne step.id s.id out hne]
        exact hfresh s (List.mem_cons_of_mem step hs)
      rw [List.pairwise_cons]
      constructor
      · intro b hb k v hk
        have hkne : k ≠ step.id := by
          intro hcon
          rw [hcon, hfresh0] at hk
          exact Option.noConfusion hk
        have hk' : dictGet ctx'.steps k = some v := by
          rw [hsteps', dictGet_dictSet_ne step.id k out hkne]
          exact hk
        exact ctxTrace_extends resources env rest (i + 1) ctx' hnd.2 hfresh'
          b hb k v hk'
      · exact ih (i + 1) ctx' hnd.2 hfresh'
    | error pr => simp

/-- C9: throughout a run of a sequential workflow with distinct step ids,
the blackboard keeps its two invariants: every intermediate state carries
the unchanged `trigger.input`, the `steps` dict after `j` executed steps
holds exactly the first `j` step ids in order (each entry appearing
immediately after its step completed), and an entry once written is never
removed or overwritten by any later state. -/
theorem blackboard_invariants (resources : List Resource)
    (env : Nat → StepEnv) (ss : List WorkflowStep)
    (inp : List (String × Val))
    (hnd : (ss.map WorkflowStep.id).Nodup) :
    (∀ c ∈ ctxTrace resources env ss 0 { trigger_input := inp, steps := [] },
      c.trigger_input = inp) ∧
    (∀ j c, (ctxTrace resources env ss 0
        { trigger_input := inp, steps := [] }).get? j = some c →
      c.steps.map Prod.fst = (ss.take j).map WorkflowStep.id) ∧
    (ctxTrace resources env ss 0
        { trigger_input := inp, steps := [] }).Pairwise
      (fun a b => ∀ k v, dictGet a.steps k = some v →
        dictGet b.steps k = some v) := by
  refine ⟨?_, ?_, ?_⟩
  · exact ctxTrace_trigger resources env ss 0 _
  · intro j c hc
    have := ctxTrace_keys resources env ss 0
      { trigger_input := inp, steps := [] } hnd (fun s _ => rfl) j c hc
    simpa using this
  · exact ctxTrace_pairwise resources env ss 0 _ hnd (fun s _ => rfl)

/-- C9 witness: the invariants instantiated on the two-step workflow
`cfgTwo` with the sample input. -/
theorem blackboard_invariants_witness :
    (∀ c ∈ ctxTrace cfgTwo.resources envOk cfgTwo.workflow.steps 0
        { trigger_input := sampleInput, steps := [] },
      c.trigger_input = sampleInput) ∧
    (∀ j c, (ctxTrace cfgTwo.resources envOk cfgTwo.workflow.steps 0
        { trigger_input := sampleInput, steps := [] }).get? j = some c →
      c.steps.map Prod.fst =
        (cfgTwo.workflow.steps.take j).map WorkflowStep.id) ∧
    (ctxTrace cfgTwo.resources envOk cfgTwo.workflow.steps 0
        { trigger_input := sampleInput, steps := [] }).Pairwise
      (fun a b => ∀ k v, dictGet a.steps k = some v →
        dictGet b.steps k = some v) :=
  blackboard_invariants cfgTwo.resources envOk cfgTwo.workflow.steps
    sampleInput (by decide)

/-! ## Claim theorems about the template resolver -/

/-- C10: the resolver substitutes any brace-delimited dotted path that
resolves against the blackboard, even without a `$` prefix: wherever the
template contains a bare `\x7bp\x7d` whose path resolves to `v`, the
output carries the string form of `v` in its place — literal brace text
is interpreted as a reference, not preserved. -/
theorem bare_brace_substitution (context : Val) (pre p post : String)
    (v : Val) (h1 : lbrace ∉ pre.data) (h2 : rbrace ∉ p.data)
    (h3 : p.data ≠ [])
    (hwalk : walkPath context ((splitDot p.data).map String.mk) = some v) :
    resolve_template (pre ++ "\x7b" ++ p ++ "\x7d" ++ post) context =
      pre ++ (pyStr v ++ resolve_template post context) := by
  rw [resolve_template_split context pre p post h1 h2 h3]
  have hrv : String.mk (replaceVar context p.data) = pyStr v := by
    simp only [replaceVar, hwalk]
  rw [hrv]

/-- C10 witness: with blackboard input `\x7b"topic": "Rust"\x7d`, the
bare-brace template `"bare \x7btrigger.input.topic\x7d here"` resolves to
`"bare Rust here"`. -/
theorem bare_brace_substitution_witness :
    resolve_template ("bare " ++ "\x7b" ++ "trigger.input.topic" ++ "\x7d"
        ++ " here") (ctxVal ctxRust) =
      "bare " ++ (pyStr (.vStr "Rust") ++
        resolve_template " here" (ctxVal ctxRust)) :=
  bare_brace_substitution (ctxVal ctxRust) "bare " "trigger.input.topic"
    " here" (.vStr "Rust") (by decide) (by decide) (by decide) rfl

/-- C4: a reference whose path does not fully resolve is preserved
verbatim — the whole `$\x7b...\x7d` text survives (the `$` is ordinary
text to the resolver, the failed match is returned unchanged) — and
resolution is idempotent on templates all of whose references are
unresolved: resolving a second time against the same blackboard yields
the same text. -/
theorem unresolved_ref_preserved :
    (∀ (context : Val) (pre p post : String),
        lbrace ∉ pre.data → rbrace ∉ p.data → p.data ≠ [] →
        walkPath context ((splitDot p.data).map String.mk) = none →
        resolve_template (pre ++ "\x7b" ++ p ++ "\x7d" ++ post) context =
          pre ++ ("\x7b" ++ p ++ "\x7d" ++ resolve_template post context)) ∧
    (∀ (context : Val) (t : String), allRefsFail context t.data = true →
        resolve_template t context = t ∧
        resolve_template (resolve_template t context) context =
          resolve_template t context) := by
  constructor
  · intro context pre p post h1 h2 h3 hwalk
    rw [resolve_template_split context pre p post h1 h2 h3]
    have hrv : String.mk (replaceVar context p.data) =
        "\x7b" ++ p ++ "\x7d" := by
      simp only [replaceVar, hwalk]
      apply String.ext
      simp [String.data_append, lbrace, rbrace]
    rw [hrv]
  · intro context t h
    have hid : resolve_template t context = t := by
      apply String.ext
      show resolveFuel context t.data.length t.data = t.data
      exact resolveFuel_of_allRefsFail context _ _ h
    exact ⟨hid, by rw [hid, hid]⟩

/-- C4 witness: `"Use $\x7bsteps.research.result\x7d"` against the empty
`steps` map is preserved verbatim, and resolving it twice equals
resolving it once. -/
theorem unresolved_ref_preserved_witness :
    resolve_template ("Use $" ++ "\x7b" ++ "steps.research.result" ++
        "\x7d" ++ "") (ctxVal ctxRust) =
      "Use $" ++ ("\x7b" ++ "steps.research.result" ++ "\x7d" ++
        resolve_template "" (ctxVal ctxRust)) ∧
    resolve_template "Use $\x7bsteps.research.result\x7d" (ctxVal ctxRust) =
      "Use $\x7bsteps.research.result\x7d" :=
  ⟨unresolved_ref_preserved.1 (ctxVal ctxRust) "Use $" "steps.research.result"
      "" (by decide) (by decide) (by decide) rfl,
   (unresolved_ref_preserved.2 (ctxVal ctxRust)
      "Use $\x7bsteps.research.result\x7d" rfl).1⟩

/-- C3 (code bug): the documented reference syntax is
`$\x7btrigger.input.X\x7d`, but the regex at engine.py:214 matches only
the brace part, so the `$` survives substitution: with input context
`\x7b"topic": "Rust"\x7d`, `"Research $\x7btrigger.input.topic\x7d"`
resolves to `"Research $Rust"`, not the specified `"Research Rust"`. -/
theorem dollar_ref_resolution_bug :
    resolve_template "Research $\x7btrigger.input.topic\x7d"
        (ctxVal ctxRust) = "Research $Rust" ∧
    resolve_template "Research $\x7btrigger.input.topic\x7d"
        (ctxVal ctxRust) ≠ "Research Rust" := by
  refine ⟨rfl, ?_⟩
  rw [show resolve_template "Research $\x7btrigger.input.topic\x7d"
        (ctxVal ctxRust) = "Research $Rust" from rfl]
  decide

end Holon
